import Mathlib

/-!
Verification of the instruction-building HTTP microservice (Rust/axum, Solana SDK).

The development shallowly embeds the two source files (`src/main.rs`,
`src/handlers/mod.rs`) together with the external library routines they
invoke: base58 and base64 codecs, SHA-512, the ed25519 operations of
`ed25519-dalek` 1.0.1, and the instruction builders of `spl-token` /
`solana-sdk`.  Machine integers are modelled as `Nat` with explicit
reductions; byte strings are `List Nat` with entries below 256; fallible
Rust paths become `Option` / `Except`.
-/

set_option maxRecDepth 100000

namespace Spec2Proof

/-! ## Byte-level utilities -/

/-- Little-endian value of a byte list. -/
def leVal : List Nat → Nat
  | [] => 0
  | b :: bs => b + 256 * leVal bs

/-- `k` little-endian bytes of `n` (truncating above `256^k`). -/
def natToLEBytes : Nat → Nat → List Nat
  | 0, _ => []
  | k + 1, n => n % 256 :: natToLEBytes k (n / 256)

/-- `k` big-endian bytes of `n`. -/
def natToBEBytes (k n : Nat) : List Nat :=
  (natToLEBytes k n).reverse

/-- Big-endian value of a byte list, as accumulated by the codec loops. -/
def beVal (bs : List Nat) : Nat :=
  bs.foldl (fun a b => a * 256 + b) 0

/-- Number of leading zero entries of a list. -/
def countLeadingZeros : List Nat → Nat
  | [] => 0
  | b :: bs => if b = 0 then countLeadingZeros bs + 1 else 0

/-- Base-`b` digits of `n`, least significant first, by explicit fuel so that
the kernel can evaluate it.  With fuel at least `n` it agrees with
`Nat.digits b n` (for `2 ≤ b`). -/
def digitsFuel (b : Nat) : Nat → Nat → List Nat
  | 0, _ => []
  | _ + 1, 0 => []
  | fuel + 1, n + 1 => (n + 1) % b :: digitsFuel b fuel ((n + 1) / b)

/-- Base-`b` digits of `n`, least significant first. -/
def natToBase (b n : Nat) : List Nat :=
  digitsFuel b n n

/-- First index of `c` in a character list. -/
def charIdx (c : Char) : List Char → Option Nat
  | [] => none
  | a :: as => if a = c then some 0 else (charIdx c as).map (· + 1)

/-- Mapping a fallible function over a list, failing on the first failure
(the shape of the decoding loops in the `bs58` and `base64` crates). -/
def optMap {α β : Type} (f : α → Option β) : List α → Option (List β)
  | [] => some []
  | a :: as =>
    match f a, optMap f as with
    | some b, some bs => some (b :: bs)
    | _, _ => none

/-! ## Base58 (the `bs58` crate, Bitcoin alphabet)

`encode` turns each leading zero byte into `'1'` and writes the remaining
big-endian value in base 58; `decode` is the inverse long-division loop. -/

def b58Alphabet : List Char :=
  "123456789ABCDEFGHJKLMNPQRSTUVWXYZabcdefghijkmnopqrstuvwxyz".toList

def b58CharVal (c : Char) : Option Nat := charIdx c b58Alphabet

def b58DigitChar (d : Nat) : Char := b58Alphabet.getD d '1'

/-- `bs58::encode(..).into_string()`. -/
def b58Encode (bs : List Nat) : String :=
  String.mk
    (List.replicate (countLeadingZeros bs) '1' ++
      (natToBase 58 (beVal bs)).reverse.map b58DigitChar)

/-- `bs58::decode(..).into_vec()`. -/
def b58Decode (s : String) : Option (List Nat) :=
  match optMap b58CharVal s.toList with
  | none => none
  | some ds =>
    some (List.replicate (countLeadingZeros ds) 0 ++
      (natToBase 256 (ds.foldl (fun a d => a * 58 + d) 0)).reverse)

/-! ## Base64 (the `base64` crate, standard alphabet with padding) -/

def b64Alphabet : List Char :=
  "ABCDEFGHIJKLMNOPQRSTUVWXYZabcdefghijklmnopqrstuvwxyz0123456789+/".toList

def b64CharVal (c : Char) : Option Nat := charIdx c b64Alphabet

def b64DigitChar (d : Nat) : Char := b64Alphabet.getD d 'A'

/-- `base64::encode`, three bytes at a time. -/
def b64EncodeChars : List Nat → List Char
  | [] => []
  | [a] =>
    [b64DigitChar (a / 4), b64DigitChar (a % 4 * 16), '=', '=']
  | [a, b] =>
    [b64DigitChar (a / 4), b64DigitChar (a % 4 * 16 + b / 16),
      b64DigitChar (b % 16 * 4), '=']
  | a :: b :: c :: rest =>
    b64DigitChar (a / 4) :: b64DigitChar (a % 4 * 16 + b / 16) ::
      b64DigitChar (b % 16 * 4 + c / 64) :: b64DigitChar (c % 64) ::
      b64EncodeChars rest

def b64Encode (bs : List Nat) : String := String.mk (b64EncodeChars bs)

/-- `base64::decode`, four characters at a time, with `'='` padding. -/
def b64DecodeChars : List Char → Option (List Nat)
  | [] => some []
  | c1 :: c2 :: c3 :: c4 :: rest =>
    match b64CharVal c1, b64CharVal c2 with
    | some v1, some v2 =>
      if c3 = '=' then
        if c4 = '=' ∧ rest = [] then some [v1 * 4 + v2 / 16] else none
      else
        match b64CharVal c3 with
        | some v3 =>
          if c4 = '=' then
            if rest = [] then some [v1 * 4 + v2 / 16, v2 % 16 * 16 + v3 / 4]
            else none
          else
            match b64CharVal c4, b64DecodeChars rest with
            | some v4, some bs =>
              some ((v1 * 4 + v2 / 16) :: (v2 % 16 * 16 + v3 / 4) ::
                (v3 % 4 * 64 + v4) :: bs)
            | _, _ => none
        | none => none
    | _, _ => none
  | _ => none

def b64Decode (s : String) : Option (List Nat) := b64DecodeChars s.toList

/-! ## UTF-8 bytes of a string (Rust `String::as_bytes`) -/

/-- UTF-8 encoding of one scalar value. -/
def utf8Bytes (c : Char) : List Nat :=
  let n := c.toNat
  if n < 128 then [n]
  else if n < 2048 then [192 + n / 64, 128 + n % 64]
  else if n < 65536 then [224 + n / 4096, 128 + n / 64 % 64, 128 + n % 64]
  else [240 + n / 262144, 128 + n / 4096 % 64, 128 + n / 64 % 64, 128 + n % 64]

def strBytes (s : String) : List Nat := s.toList.flatMap utf8Bytes

/-! ## SHA-512 (FIPS 180-4), on byte lists, 64-bit words as `Nat` mod `2^64` -/

def w64 (n : Nat) : Nat := n % 18446744073709551616

def rotr64 (x n : Nat) : Nat := w64 ((x >>> n) ||| (x <<< (64 - n)))

def sha512K : List Nat :=
  [4794697086780616226, 8158064640168781261, 13096744586834688815,
   16840607885511220156, 4131703408338449720, 6480981068601479193,
   10538285296894168987, 12329834152419229976, 15566598209576043074,
   1334009975649890238, 2608012711638119052, 6128411473006802146,
   8268148722764581231, 9286055187155687089, 11230858885718282805,
   13951009754708518548, 16472876342353939154, 17275323862435702243,
   1135362057144423861, 2597628984639134821, 3308224258029322869,
   5365058923640841347, 6679025012923562964, 8573033837759648693,
   10970295158949994411, 12119686244451234320, 12683024718118986047,
   13788192230050041572, 14330467153632333762, 15395433587784984357,
   489312712824947311, 1452737877330783856, 2861767655752347644,
   3322285676063803686, 5560940570517711597, 5996557281743188959,
   7280758554555802590, 8532644243296465576, 9350256976987008742,
   10552545826968843579, 11727347734174303076, 12113106623233404929,
   14000437183269869457, 14369950271660146224, 15101387698204529176,
   15463397548674623760, 17586052441742319658, 1182934255886127544,
   1847814050463011016, 2177327727835720531, 2830643537854262169,
   3796741975233480872, 4115178125766777443, 5681478168544905931,
   6601373596472566643, 7507060721942968483, 8399075790359081724,
   8693463985226723168, 9568029438360202098, 10144078919501101548,
   10430055236837252648, 11840083180663258601, 13761210420658862357,
   14299343276471374635, 14566680578165727644, 15097957966210449927,
   16922976911328602910, 17689382322260857208, 500013540394364858,
   748580250866718886, 1242879168328830382, 1977374033974150939,
   2944078676154940804, 3659926193048069267, 4368137639120453308,
   4836135668995329356, 5532061633213252278, 6448918945643986474,
   6902733635092675308, 7801388544844847127]

def sha512H0 : List Nat :=
  [7640891576956012808, 13503953896175478587, 4354685564936845355,
   11912009170470909681, 5840696475078001361, 11170449401992604703,
   2270897969802886507, 6620516959819538809]

/-- Merkle–Damgård padding: `0x80`, zeros, then the 128-bit big-endian bit
length, reaching a multiple of 128 bytes. -/
def sha512pad (msg : List Nat) : List Nat :=
  msg ++ [128] ++ List.replicate ((239 - msg.length % 128) % 128) 0 ++
    natToBEBytes 16 (8 * msg.length)

/-- Big-endian 64-bit word from (up to) eight bytes. -/
def beWord (bs : List Nat) : Nat :=
  bs.foldl (fun a b => a * 256 + b) 0

/-- Extend the 16-word schedule with `k` further words. -/
def sha512extend : Nat → Array Nat → Array Nat
  | 0, w => w
  | k + 1, w =>
    let i := w.size
    let x15 := w.getD (i - 15) 0
    let x2 := w.getD (i - 2) 0
    let s0 := rotr64 x15 1 ^^^ rotr64 x15 8 ^^^ (x15 >>> 7)
    let s1 := rotr64 x2 19 ^^^ rotr64 x2 61 ^^^ (x2 >>> 6)
    sha512extend k (w.push (w64 (w.getD (i - 16) 0 + s0 + w.getD (i - 7) 0 + s1)))

/-- One compression round. -/
def sha512round (w : Array Nat) (i : Nat) (st : List Nat) : List Nat :=
  match st with
  | [a, b, c, d, e, f, g, h] =>
    let s1 := rotr64 e 14 ^^^ rotr64 e 18 ^^^ rotr64 e 41
    let ch := (e &&& f) ^^^ ((18446744073709551615 - e) &&& g)
    let t1 := w64 (h + s1 + ch + sha512K.getD i 0 + w.getD i 0)
    let s0 := rotr64 a 28 ^^^ rotr64 a 34 ^^^ rotr64 a 39
    let mj := (a &&& b) ^^^ (a &&& c) ^^^ (b &&& c)
    let t2 := w64 (s0 + mj)
    [w64 (t1 + t2), a, b, c, w64 (d + t1), e, f, g]
  | _ => st

def sha512rounds (w : Array Nat) : Nat → Nat → List Nat → List Nat
  | 0, _, st => st
  | k + 1, i, st => sha512rounds w k (i + 1) (sha512round w i st)

/-- Compress one 128-byte block into the chaining state. -/
def sha512compress (h : List Nat) (block : List Nat) : List Nat :=
  let w0 := (List.range 16).map fun i => beWord ((block.drop (8 * i)).take 8)
  let w := sha512extend 64 (Array.mk w0)
  let st := sha512rounds w 80 0 h
  (h.zip st).map fun p => w64 (p.1 + p.2)

def sha512chunks : Nat → List Nat → List Nat → List Nat
  | 0, h, _ => h
  | k + 1, h, bytes => sha512chunks k (sha512compress h (bytes.take 128)) (bytes.drop 128)

/-- SHA-512 digest (64 bytes) of a byte list. -/
def sha512 (msg : List Nat) : List Nat :=
  let padded := sha512pad msg
  ((sha512chunks (padded.length / 128) sha512H0 padded).map (natToBEBytes 8)).flatten

/-! ## The ed25519 group and signatures (`ed25519-dalek` 1.0.1 /
`curve25519-dalek`), in extended twisted Edwards coordinates -/

/-- The field prime `2^255 - 19`. -/
def pEd : Nat := 57896044618658097711785492504343953926634992332820282019728792003956564819949

/-- The Edwards curve constant `d = -121665/121666`. -/
def dEd : Nat := 37095705934669439343138083508754565189542113879843219016388785533085940283555

/-- The group order `l = 2^252 + 27742317777372353535851937790883648493`. -/
def ordL : Nat := 7237005577332262213973186563042994240857116359379907606001950938285454250989

/-- A square root of `-1` modulo `pEd`, as in `curve25519-dalek`'s `SQRT_M1`. -/
def sqrtM1 : Nat := 19681161376707505956807079304988542015446066515923890162744021073123829784752

def fadd (a b : Nat) : Nat := (a + b) % pEd

def fsub (a b : Nat) : Nat := (a + (pEd - b % pEd)) % pEd

def fmul (a b : Nat) : Nat := a * b % pEd

/-- Square-and-multiply modular exponentiation with explicit fuel. -/
def powModFuel : Nat → Nat → Nat → Nat → Nat
  | 0, _, _, acc => acc
  | fuel + 1, b, e, acc =>
    if e = 0 then acc
    else powModFuel fuel (fmul b b) (e / 2) (if e % 2 = 1 then fmul acc b else acc)

def fpow (b e : Nat) : Nat := powModFuel 600 (b % pEd) e 1

def finv (a : Nat) : Nat := fpow a (pEd - 2)

/-- A point in extended coordinates: `x = X/Z`, `y = Y/Z`, `T = XY/Z`. -/
structure EPoint where
  X : Nat
  Y : Nat
  Z : Nat
  T : Nat
deriving DecidableEq, Repr

def edIdentity : EPoint := ⟨0, 1, 1, 0⟩

/-- Unified addition for `a = -1` twisted Edwards curves
(add-2008-hwcd-3, as used by `curve25519-dalek`). -/
def edAdd (p q : EPoint) : EPoint :=
  let a := fmul (fsub p.Y p.X) (fsub q.Y q.X)
  let b := fmul (fadd p.Y p.X) (fadd q.Y q.X)
  let c := fmul (fmul 2 dEd) (fmul p.T q.T)
  let d := fmul 2 (fmul p.Z q.Z)
  let e := fsub b a
  let f := fsub d c
  let g := fadd d c
  let h := fadd b a
  ⟨fmul e f, fmul g h, fmul f g, fmul e h⟩

def edNeg (p : EPoint) : EPoint :=
  ⟨(pEd - p.X % pEd) % pEd, p.Y, p.Z, (pEd - p.T % pEd) % pEd⟩

/-- Double-and-add scalar multiplication with explicit fuel. -/
def scalarMulFuel : Nat → Nat → EPoint → EPoint → EPoint
  | 0, _, _, acc => acc
  | fuel + 1, k, q, acc =>
    if k = 0 then acc
    else scalarMulFuel fuel (k / 2) (edAdd q q)
      (if k % 2 = 1 then edAdd acc q else acc)

def edScalarMul (k : Nat) (q : EPoint) : EPoint :=
  scalarMulFuel 300 k q edIdentity

def edBasepoint : EPoint :=
  ⟨15112221349535400772501151409588531511454012693041857206046113283949847762202,
   46316835694926478169428394003475163141307993866256225615783033603165251855960,
   1,
   fmul 15112221349535400772501151409588531511454012693041857206046113283949847762202
     46316835694926478169428394003475163141307993866256225615783033603165251855960⟩

/-- Compressed 32-byte encoding: little-endian `y` with the parity of `x`
in the top bit. -/
def edCompress (q : EPoint) : List Nat :=
  let zi := finv q.Z
  let x := fmul q.X zi
  let y := fmul q.Y zi
  natToLEBytes 32 (y + x % 2 * 57896044618658097711785492504343953926634992332820282019728792003956564819968)

/-- `CompressedEdwardsY::decompress`: recover `x` from `y` via
`sqrt_ratio_i`, failing when `(y^2-1)/(d y^2+1)` is not a square. -/
def edDecompress (bs : List Nat) : Option EPoint :=
  let n := leVal bs
  let sign := n / 57896044618658097711785492504343953926634992332820282019728792003956564819968
  let y := n % 57896044618658097711785492504343953926634992332820282019728792003956564819968 % pEd
  let u := fsub (fmul y y) 1
  let v := fadd (fmul dEd (fmul y y)) 1
  let r0 := fmul (fmul u (fpow v 3)) (fpow (fmul u (fpow v 7)) ((pEd - 5) / 8))
  let check := fmul v (fmul r0 r0)
  let r1 :=
    if check = fsub 0 u ∨ check = fsub 0 (fmul u sqrtM1) then fmul r0 sqrtM1 else r0
  let r2 := if r1 % 2 = 1 then (pEd - r1) % pEd else r1
  if check = u % pEd ∨ check = fsub 0 u then
    let x := if sign = 1 then (pEd - r2) % pEd else r2
    some ⟨x, y, 1, fmul x y⟩
  else none

/-- Projective point equality, as `curve25519-dalek`'s `PartialEq`. -/
def edEq (a b : EPoint) : Bool :=
  fmul a.X b.Z = fmul b.X a.Z ∧ fmul a.Y b.Z = fmul b.Y a.Z

/-- `EdwardsPoint::is_small_order`: multiply by the cofactor 8 and compare
with the identity. -/
def edIsSmallOrder (q : EPoint) : Bool :=
  let q2 := edAdd q q
  let q4 := edAdd q2 q2
  let q8 := edAdd q4 q4
  fmul q8.X (finv q8.Z) = 0 ∧ fmul q8.Y (finv q8.Z) = 1

/-- Clamping of the lower half of the expanded secret key: clear the low
three bits and bit 255, set bit 254. -/
def clampVal (a : Nat) : Nat :=
  (a % 57896044618658097711785492504343953926634992332820282019728792003956564819968
     % 28948022309329048855892746252171976963317496166410141009864396001978282409984
   + 28948022309329048855892746252171976963317496166410141009864396001978282409984)
  / 8 * 8

/-- Public key bytes derived from a 32-byte seed
(`ed25519_dalek::PublicKey::from(&SecretKey)`). -/
def ed25519DerivePub (seed : List Nat) : List Nat :=
  let h := sha512 seed
  let a := clampVal (leVal (h.take 32))
  edCompress (edScalarMul a edBasepoint)

/-- `Keypair::sign` via the expanded secret key: the public half is the
stored 32 bytes `pub32`, not rederived. -/
def dalekSign (seed pub32 msg : List Nat) : List Nat :=
  let h := sha512 seed
  let a := clampVal (leVal (h.take 32))
  let nonceHalf := h.drop 32
  let r := leVal (sha512 (nonceHalf ++ msg)) % ordL
  let rBytes := edCompress (edScalarMul r edBasepoint)
  let k := leVal (sha512 (rBytes ++ pub32 ++ msg)) % ordL
  let s := (k * a + r) % ordL
  rBytes ++ natToLEBytes 32 s

/-- A freshly generated key pair signs with its derived public half. -/
def ed25519Sign (seed msg : List Nat) : List Nat × List Nat :=
  (dalekSign seed (ed25519DerivePub seed) msg, ed25519DerivePub seed)

/-- `check_scalar` of `ed25519-dalek` 1.0.1: succeed fast when the top four
bits are clear, reject when the top three bits are set, otherwise demand a
canonical (fully reduced) scalar. -/
def checkScalarOk (sbytes : List Nat) : Bool :=
  let b31 := sbytes.getD 31 0
  if b31 &&& 240 = 0 then true
  else if b31 &&& 224 ≠ 0 then false
  else leVal sbytes < ordL

/-- `PublicKey::verify_strict` of `ed25519-dalek` 1.0.1 on raw byte inputs:
deserialize the signature (canonical-scalar check), decompress `R`, reject
small-order `R` or `A`, then compare `sB - kA` with `R`. -/
def ed25519VerifyStrict (pkBytes msgBytes sigBytes : List Nat) : Bool :=
  match edDecompress pkBytes with
  | none => false
  | some aPoint =>
    if sigBytes.length ≠ 64 then false
    else
      let rBytes := sigBytes.take 32
      let sBytes := sigBytes.drop 32
      if checkScalarOk sBytes = false then false
      else
        match edDecompress rBytes with
        | none => false
        | some rPoint =>
          if edIsSmallOrder rPoint ∨ edIsSmallOrder aPoint then false
          else
            let k := leVal (sha512 (rBytes ++ pkBytes ++ msgBytes)) % ordL
            let rPrime := edAdd (edScalarMul (leVal sBytes) edBasepoint)
              (edScalarMul k (edNeg aPoint))
            edEq rPrime rPoint

/-! ## Solana SDK pieces: `Pubkey`, `AccountMeta`, `Instruction` -/

/-- `Pubkey::from_str`: at most 44 characters, base58-decoded, exactly
32 bytes. -/
def pubkeyFromStr (s : String) : Option (List Nat) :=
  if s.length > 44 then none
  else
    match b58Decode s with
    | none => none
    | some bs => if bs.length = 32 then some bs else none

/-- `Pubkey::to_string` (base58 of the 32 bytes). -/
def pubkeyToString (bs : List Nat) : String := b58Encode bs

structure AccountMeta where
  pubkey : List Nat
  is_signer : Bool
  is_writable : Bool
deriving DecidableEq, Repr

structure Instruction where
  program_id : List Nat
  accounts : List AccountMeta
  data : List Nat
deriving DecidableEq, Repr

/-- `spl_token::ID` (`TokenkegQfeZyiNwAJbNbGKPFXCWuBvf9Ss623VQ5DA`). -/
def splTokenId : List Nat :=
  [6, 221, 246, 225, 215, 101, 161, 147, 217, 203, 225, 70, 206, 235, 121,
   172, 28, 180, 133, 237, 95, 91, 55, 145, 58, 140, 245, 133, 126, 255, 0, 169]

/-- `sysvar::rent::ID` (`SysvarRent111111111111111111111111111111111`). -/
def sysvarRentId : List Nat :=
  [6, 167, 213, 23, 25, 44, 92, 81, 33, 140, 201, 76, 61, 74, 241, 127, 88,
   218, 238, 8, 155, 161, 253, 68, 227, 219, 217, 138, 0, 0, 0, 0]

/-- `system_program::ID` (the all-zero address,
`11111111111111111111111111111111`). -/
def systemProgramId : List Nat := List.replicate 32 0

/-- `spl_token::instruction::initialize_mint`.  Packs
`TokenInstruction::InitializeMint` (tag 0, decimals, mint authority,
`COption` freeze authority) after checking the program id. -/
def initialize_mint (token_program_id mint_pubkey mint_authority : List Nat)
    (freeze_authority : Option (List Nat)) (decimals : Nat) :
    Except String Instruction :=
  if token_program_id ≠ splTokenId then .error "IncorrectProgramId"
  else
    .ok
      { program_id := token_program_id
        accounts := [⟨mint_pubkey, false, true⟩, ⟨sysvarRentId, false, false⟩]
        data := 0 :: decimals :: mint_authority ++
          (match freeze_authority with
           | some fa => 1 :: fa
           | none => [0]) }

/-- `spl_token::instruction::mint_to` (tag 7, little-endian amount). -/
def mint_to (token_program_id mint_pubkey account_pubkey owner_pubkey : List Nat)
    (signer_pubkeys : List (List Nat)) (amount : Nat) :
    Except String Instruction :=
  if token_program_id ≠ splTokenId then .error "IncorrectProgramId"
  else
    .ok
      { program_id := token_program_id
        accounts := ⟨mint_pubkey, false, true⟩ :: ⟨account_pubkey, false, true⟩ ::
          ⟨owner_pubkey, signer_pubkeys.isEmpty, false⟩ ::
          signer_pubkeys.map fun sp => ⟨sp, true, false⟩
        data := 7 :: natToLEBytes 8 amount }

/-- `spl_token::instruction::transfer_checked` (tag 12, little-endian
amount, decimals). -/
def transfer_checked
    (token_program_id source_pubkey mint_pubkey destination_pubkey
      authority_pubkey : List Nat)
    (signer_pubkeys : List (List Nat)) (amount decimals : Nat) :
    Except String Instruction :=
  if token_program_id ≠ splTokenId then .error "IncorrectProgramId"
  else
    .ok
      { program_id := token_program_id
        accounts := ⟨source_pubkey, false, true⟩ :: ⟨mint_pubkey, false, false⟩ ::
          ⟨destination_pubkey, false, true⟩ ::
          ⟨authority_pubkey, signer_pubkeys.isEmpty, false⟩ ::
          signer_pubkeys.map fun sp => ⟨sp, true, false⟩
        data := 12 :: natToLEBytes 8 amount ++ [decimals] }

/-- `solana_sdk::system_instruction::transfer`: bincode of
`SystemInstruction::Transfer` (variant 2 as little-endian `u32`, then the
lamports as little-endian `u64`). -/
def system_transfer (from_pubkey to_pubkey : List Nat) (lamports : Nat) :
    Instruction :=
  { program_id := systemProgramId
    accounts := [⟨from_pubkey, true, true⟩, ⟨to_pubkey, false, true⟩]
    data := [2, 0, 0, 0] ++ natToLEBytes 8 lamports }

/-! ## The HTTP handlers (`src/handlers/mod.rs`)

Every handler is a pure function of its request (plus, for `/keypair`, the
32 random bytes drawn by `Keypair::new`).  `Ok(Json(..))` is HTTP 200; the
error side carries the `StatusCode` and the JSON error body. -/

structure ErrorResponse where
  success : Bool
  error : String
deriving DecidableEq, Repr

structure SuccessResponse (α : Type) where
  success : Bool
  data : α
deriving DecidableEq, Repr

instance {ε α : Type} [DecidableEq ε] [DecidableEq α] : DecidableEq (Except ε α)
  | .ok a, .ok b =>
    if h : a = b then isTrue (by rw [h]) else isFalse (by simp [h])
  | .error a, .error b =>
    if h : a = b then isTrue (by rw [h]) else isFalse (by simp [h])
  | .ok _, .error _ => isFalse (by simp)
  | .error _, .ok _ => isFalse (by simp)

abbrev HandlerResult (α : Type) := Except (Nat × ErrorResponse) (SuccessResponse α)

/-- HTTP status of a handler result (axum serves `Ok(Json(..))` as 200). -/
def statusOf {α : Type} : HandlerResult α → Nat
  | .error e => e.1
  | .ok _ => 200

def badReq (msg : String) : Nat × ErrorResponse := (400, ⟨false, msg⟩)

structure KeypairResponse where
  pubkey : String
  secret : String
deriving DecidableEq, Repr

/-- The `fail` query parameter check at the top of `generate_keypair`. -/
def failRequested (params : String → Option String) : Bool :=
  match params "fail" with
  | some f => f = "true"
  | none => false

/-- `/keypair`.  `params` models the query map; `seed` models the 32 random
bytes drawn by `Keypair::new` (whose public half is derived from them). -/
def generate_keypair (params : String → Option String) (seed : List Nat) :
    HandlerResult KeypairResponse :=
  if failRequested params then
    .error (badReq "Simulated failure via query param")
  else
    .ok ⟨true, ⟨b58Encode (ed25519DerivePub seed),
      b58Encode (seed ++ ed25519DerivePub seed)⟩⟩

structure CreateTokenRequest where
  mintAuthority : String
  mint : String
  decimals : Nat
deriving DecidableEq, Repr

structure AccountMetaResponse where
  pubkey : String
  is_signer : Bool
  is_writable : Bool
deriving DecidableEq, Repr

structure CreateTokenResponse where
  program_id : String
  accounts : List AccountMetaResponse
  instruction_data : String
deriving DecidableEq, Repr

/-- `/token/create`. -/
def create_token (req : CreateTokenRequest) : HandlerResult CreateTokenResponse :=
  match pubkeyFromStr req.mint with
  | none => .error (badReq "Invalid mint pubkey")
  | some mint_pubkey =>
    match pubkeyFromStr req.mintAuthority with
    | none => .error (badReq "Invalid mint authority pubkey")
    | some mint_authority =>
      match initialize_mint splTokenId mint_pubkey mint_authority none req.decimals with
      | .error e => .error (badReq ("Failed to create instruction: " ++ e))
      | .ok instruction =>
        .ok ⟨true,
          ⟨pubkeyToString instruction.program_id,
            instruction.accounts.map fun m =>
              ⟨pubkeyToString m.pubkey, m.is_signer, m.is_writable⟩,
            b64Encode instruction.data⟩⟩

structure MintTokenRequest where
  mint : String
  destination : String
  authority : String
  amount : Nat
deriving DecidableEq, Repr

structure MintTokenResponse where
  program_id : String
  accounts : List AccountMetaResponse
  instruction_data : String
deriving DecidableEq, Repr

/-- `/token/mint`. -/
def mint_token (req : MintTokenRequest) : HandlerResult MintTokenResponse :=
  match pubkeyFromStr req.mint with
  | none => .error (badReq "Invalid mint address")
  | some mint =>
    match pubkeyFromStr req.destination with
    | none => .error (badReq "Invalid destination address")
    | some destination =>
      match pubkeyFromStr req.authority with
      | none => .error (badReq "Invalid authority address")
      | some authority =>
        match mint_to splTokenId mint destination authority [] req.amount with
        | .error e => .error (badReq ("Failed to create instruction: " ++ e))
        | .ok instruction =>
          .ok ⟨true,
            ⟨pubkeyToString instruction.program_id,
              instruction.accounts.map fun a =>
                ⟨pubkeyToString a.pubkey, a.is_signer, a.is_writable⟩,
              b64Encode instruction.data⟩⟩

structure SignMessageRequest where
  message : String
  secret : String
deriving DecidableEq, Repr

structure SignMessageResponse where
  signature : String
  public_key : String
  message : String
deriving DecidableEq, Repr

/-- `ed25519_dalek::Keypair::from_bytes`: 64 bytes, secret half then public
half; the public half must decompress as a curve point. -/
def keypair_from_bytes (bs : List Nat) : Option (List Nat × List Nat) :=
  if bs.length ≠ 64 then none
  else
    match edDecompress (bs.drop 32) with
    | none => none
    | some _ => some (bs.take 32, bs.drop 32)

/-- `/message/sign`. -/
def sign_message (req : SignMessageRequest) : HandlerResult SignMessageResponse :=
  match b58Decode req.secret with
  | none => .error (badReq "Invalid base58 secret key")
  | some secret_bytes =>
    match keypair_from_bytes secret_bytes with
    | none => .error (badReq "Failed to deserialize secret key")
    | some kp =>
      let signature := dalekSign kp.1 kp.2 (strBytes req.message)
      .ok ⟨true, ⟨b64Encode signature, pubkeyToString kp.2, req.message⟩⟩

structure VerifyMessageRequest where
  message : String
  signature : String
  pubkey : String
deriving DecidableEq, Repr

structure VerifyMessageResponse where
  valid : Bool
  message : String
  pubkey : String
deriving DecidableEq, Repr

/-- `/message/verify`.  `Signature::from_bytes` (the `ed25519` v1 container
type) only checks the 64-byte length; `PublicKey::from_bytes` checks the
32-byte length and decompresses the point. -/
def verify_message (req : VerifyMessageRequest) : HandlerResult VerifyMessageResponse :=
  match pubkeyFromStr req.pubkey with
  | none => .error (badReq "Invalid pubkey")
  | some pubkey =>
    match b64Decode req.signature with
    | none => .error (badReq "Invalid base64 signature")
    | some signature_bytes =>
      if signature_bytes.length ≠ 64 then
        .error (badReq "Invalid signature format")
      else
        match edDecompress pubkey with
        | none => .error (badReq "Invalid public key format")
        | some _ =>
          let valid := ed25519VerifyStrict pubkey (strBytes req.message) signature_bytes
          .ok ⟨true, ⟨valid, req.message, req.pubkey⟩⟩

structure SendSolRequest where
  «from» : String
  «to» : String
  lamports : Nat
deriving DecidableEq, Repr

structure SendSolResponse where
  program_id : String
  accounts : List String
  instruction_data : String
deriving DecidableEq, Repr

/-- `/send/sol`. -/
def send_sol (req : SendSolRequest) : HandlerResult SendSolResponse :=
  match pubkeyFromStr req.«from» with
  | none => .error (badReq "Invalid 'from' address")
  | some from_pubkey =>
    match pubkeyFromStr req.«to» with
    | none => .error (badReq "Invalid 'to' address")
    | some to_pubkey =>
      let instruction := system_transfer from_pubkey to_pubkey req.lamports
      .ok ⟨true,
        ⟨pubkeyToString instruction.program_id,
          instruction.accounts.map fun m => pubkeyToString m.pubkey,
          b64Encode instruction.data⟩⟩

structure SendTokenRequest where
  destination : String
  mint : String
  owner : String
  amount : Nat
deriving DecidableEq, Repr

structure AccountMetaSimple where
  pubkey : String
  isSigner : Bool
deriving DecidableEq, Repr

structure SendTokenResponse where
  program_id : String
  accounts : List AccountMetaSimple
  instruction_data : String
deriving DecidableEq, Repr

/-- `/send/token`.  Note: the `source` passed to `transfer_checked` is
parsed from the request's `destination` field (as in the source), and the
decimals argument is the constant 6. -/
def send_token (req : SendTokenRequest) : HandlerResult SendTokenResponse :=
  match pubkeyFromStr req.destination with
  | none => .error (badReq "Invalid destination address")
  | some destination =>
    match pubkeyFromStr req.mint with
    | none => .error (badReq "Invalid mint address")
    | some mint =>
      match pubkeyFromStr req.owner with
      | none => .error (badReq "Invalid owner address")
      | some owner =>
        match pubkeyFromStr req.destination with
        | none => .error (badReq "Invalid source token address")
        | some source =>
          match transfer_checked splTokenId source mint destination owner [] req.amount 6 with
          | .error e => .error (badReq ("Instruction error: " ++ e))
          | .ok instruction =>
            .ok ⟨true,
              ⟨pubkeyToString instruction.program_id,
                instruction.accounts.map fun m => ⟨pubkeyToString m.pubkey, m.is_signer⟩,
                b64Encode instruction.data⟩⟩

/-! ## Auxiliary predicates and concrete data used by the verification -/

/-- A string that is *not* a valid base-58 encoding of a 32-byte value. -/
def invalidAddr (s : String) : Bool :=
  match b58Decode s with
  | none => true
  | some bs => bs.length ≠ 32

/-- A signing triple actually produced by ed25519 key generation and
signing: some 32-byte seed signs the message to this signature/public key. -/
def genuineTriple (m : String) (sig pk : List Nat) : Prop :=
  ∃ seed : List Nat, seed.length = 32 ∧ ed25519Sign seed (strBytes m) = (sig, pk)

/-- The spec's tamper-resilience claim, as stated: for every genuine triple,
every single-byte mutation of the signature, the public key, or the message
makes `/message/verify` answer HTTP 200 with `valid:false`, never an error. -/
def claimC2 : Prop :=
  ∀ (m : String) (sig pk : List Nat), genuineTriple m sig pk →
    (∀ i b, i < sig.length → b < 256 → b ≠ sig.getD i 0 →
      verify_message ⟨m, b64Encode (sig.set i b), pubkeyToString pk⟩ =
        .ok ⟨true, ⟨false, m, pubkeyToString pk⟩⟩) ∧
    (∀ i b, i < pk.length → b < 256 → b ≠ pk.getD i 0 →
      verify_message ⟨m, b64Encode sig, pubkeyToString (pk.set i b)⟩ =
        .ok ⟨true, ⟨false, m, pubkeyToString (pk.set i b)⟩⟩) ∧
    (∀ (m' : String) i b, i < (strBytes m).length → b < 256 →
      b ≠ (strBytes m).getD i 0 → strBytes m' = (strBytes m).set i b →
      verify_message ⟨m', b64Encode sig, pubkeyToString pk⟩ =
        .ok ⟨true, ⟨false, m', pubkeyToString pk⟩⟩)

/-- Concrete seed for the scenario computations. -/
def seedC : List Nat :=
  [1, 2, 3, 4, 5, 6, 7, 8, 9, 10, 11, 12, 13, 14, 15, 16,
   17, 18, 19, 20, 21, 22, 23, 24, 25, 26, 27, 28, 29, 30, 31, 32]

/-- Public key derived from `seedC`. -/
def pkC : List Nat :=
  [121, 181, 86, 46, 143, 230, 84, 249, 64, 120, 177, 18, 232, 169, 139, 167,
   144, 31, 133, 58, 230, 149, 190, 215, 224, 227, 145, 11, 173, 4, 150, 100]

/-- Signature of the message `"hello"` under `seedC`. -/
def sigC : List Nat :=
  [105, 112, 218, 213, 100, 217, 64, 223, 144, 23, 162, 36, 49, 188, 45, 82,
   250, 224, 181, 108, 224, 123, 134, 15, 190, 56, 25, 254, 113, 40, 101, 60,
   203, 76, 230, 192, 90, 239, 1, 65, 232, 75, 20, 40, 204, 98, 137, 253,
   110, 29, 90, 9, 65, 226, 0, 95, 77, 254, 83, 76, 219, 177, 153, 14]

/-! ## Lemmas: digit fuel, folds, leading zeros -/

theorem digitsFuel_eq_digits (b : Nat) (hb : 2 ≤ b) :
    ∀ fuel n, n ≤ fuel → digitsFuel b fuel n = Nat.digits b n := by
  intro fuel
  induction fuel with
  | zero => intro n hn; interval_cases n; simp [digitsFuel]
  | succ f ih =>
    intro n hn
    match n with
    | 0 => simp [digitsFuel]
    | m + 1 =>
      have hdiv : (m + 1) / b ≤ f := by
        have := Nat.div_lt_self (show 0 < m + 1 by omega) (show 1 < b by omega)
        omega
      rw [digitsFuel, Nat.digits_def' (show 1 < b by omega) (Nat.succ_pos m), ih _ hdiv]

theorem natToBase_eq_digits (b n : Nat) (hb : 2 ≤ b) :
    natToBase b n = Nat.digits b n :=
  digitsFuel_eq_digits b hb n n (Nat.le_refl n)

theorem foldl_mul_add (B : Nat) :
    ∀ (l : List Nat) (acc : Nat),
      l.foldl (fun a d => a * B + d) acc = acc * B ^ l.length + Nat.ofDigits B l.reverse := by
  intro l
  induction l with
  | nil => intro acc; simp [Nat.ofDigits]
  | cons d t ih =>
    intro acc
    rw [List.foldl_cons, ih, List.reverse_cons, Nat.ofDigits_append]
    simp only [List.length_cons, List.length_reverse, Nat.ofDigits_singleton]
    ring

theorem clz_replicate_append (z : Nat) (l : List Nat) :
    countLeadingZeros (List.replicate z 0 ++ l) = z + countLeadingZeros l := by
  induction z with
  | zero => simp
  | succ k ih => simpa [countLeadingZeros, List.replicate_succ, ih] using by omega

theorem clz_le_length : ∀ l : List Nat, countLeadingZeros l ≤ l.length := by
  intro l
  induction l with
  | nil => simp [countLeadingZeros]
  | cons b bs ih =>
    simp only [countLeadingZeros, List.length_cons]
    by_cases hb : b = 0
    · rw [if_pos hb]; omega
    · rw [if_neg hb]; omega

theorem ofDigits_replicate_zero (B : Nat) : ∀ z, Nat.ofDigits B (List.replicate z 0) = 0 := by
  intro z
  induction z with
  | zero => simp [Nat.ofDigits]
  | succ k ih => simp [List.replicate_succ, Nat.ofDigits_cons, ih]

theorem ofDigits_append_replicate_zero (B : Nat) (l : List Nat) (z : Nat) :
    Nat.ofDigits B (l ++ List.replicate z 0) = Nat.ofDigits B l := by
  rw [Nat.ofDigits_append, ofDigits_replicate_zero]
  simp

/-- Core reconstruction: canonical digits prefixed by the recorded leading
zeros rebuild any digit list. -/
theorem digits_reconstruct (B : Nat) (hB : 2 ≤ B) :
    ∀ ds : List Nat, (∀ x ∈ ds, x < B) →
      List.replicate (countLeadingZeros ds) 0 ++
        (Nat.digits B (Nat.ofDigits B ds.reverse)).reverse = ds := by
  intro ds
  induction ds with
  | nil => simp [countLeadingZeros, Nat.ofDigits]
  | cons d t ih =>
    intro h
    by_cases hd : d = 0
    · subst hd
      have hz : Nat.ofDigits B (t.reverse ++ [0]) = Nat.ofDigits B t.reverse := by
        simpa using ofDigits_append_replicate_zero B t.reverse 1
      have ht := ih fun x hx => h x (List.mem_cons_of_mem _ hx)
      have hclz : countLeadingZeros (0 :: t) = countLeadingZeros t + 1 := by
        simp [countLeadingZeros]
      rw [List.reverse_cons, hz, hclz, List.replicate_succ, List.cons_append, ht]
    · have hlast : (t.reverse ++ [d]).getLast (by simp) ≠ 0 := by
        rwa [List.getLast_append]
      have hmem : ∀ x ∈ t.reverse ++ [d], x < B := by
        intro x hx
        rcases List.mem_append.mp hx with hx | hx
        · exact h x (List.mem_cons_of_mem _ (List.mem_reverse.mp hx))
        · rcases List.mem_singleton.mp hx with rfl
          exact h x (List.mem_cons_self _ _)
      rw [List.reverse_cons,
        Nat.digits_ofDigits B (by omega) _ hmem fun _ => hlast]
      simp [countLeadingZeros, hd]

/-! ## Lemmas: character indexing and fallible maps -/

theorem charIdx_lt {c : Char} : ∀ {l : List Char} {i : Nat},
    charIdx c l = some i → i < l.length := by
  intro l
  induction l with
  | nil => intro i h; simp [charIdx] at h
  | cons a as ih =>
    intro i h
    by_cases ha : a = c
    · simp only [charIdx, if_pos ha, Option.some.injEq] at h
      subst h
      simp
    · simp only [charIdx, if_neg ha, Option.map_eq_some'] at h
      obtain ⟨j, hj, rfl⟩ := h
      have := ih hj
      simp only [List.length_cons]
      omega

theorem charIdx_getD {c d : Char} : ∀ {l : List Char} {i : Nat},
    charIdx c l = some i → l.getD i d = c := by
  intro l
  induction l with
  | nil => intro i h; simp [charIdx] at h
  | cons a as ih =>
    intro i h
    by_cases ha : a = c
    · simp [charIdx, ha] at h
      subst h
      simpa using ha
    · simp only [charIdx, if_neg ha, Option.map_eq_some'] at h
      obtain ⟨j, hj, rfl⟩ := h
      simpa using ih hj

theorem optMap_cons {α β : Type} (f : α → Option β) (a : α) (as : List α) :
    optMap f (a :: as) =
      match f a, optMap f as with
      | some b, some bs => some (b :: bs)
      | _, _ => none := rfl

theorem optMap_append {α β : Type} (f : α → Option β) :
    ∀ (l1 l2 : List α) (b1 b2 : List β),
      optMap f l1 = some b1 → optMap f l2 = some b2 →
      optMap f (l1 ++ l2) = some (b1 ++ b2) := by
  intro l1
  induction l1 with
  | nil =>
    intro l2 b1 b2 h1 h2
    simp only [optMap] at h1
    cases h1
    simpa using h2
  | cons a as ih =>
    intro l2 b1 b2 h1 h2
    rw [optMap_cons] at h1
    cases hfa : f a with
    | none => rw [hfa] at h1; exact absurd h1 (by simp)
    | some b =>
      rw [hfa] at h1
      cases hrest : optMap f as with
      | none => rw [hrest] at h1; exact absurd h1 (by simp)
      | some bs =>
        rw [hrest] at h1
        cases h1
        rw [List.cons_append, optMap_cons, hfa, ih l2 bs b2 hrest h2]
        rfl

theorem optMap_map_of_inverse {α β : Type} (f : α → Option β) (g : β → α) :
    ∀ (l : List β), (∀ b ∈ l, f (g b) = some b) →
      optMap f (l.map g) = some l := by
  intro l
  induction l with
  | nil => intro; simp [optMap]
  | cons b bs ih =>
    intro h
    simp only [List.map_cons, optMap, h b (List.mem_cons_self _ _),
      ih fun x hx => h x (List.mem_cons_of_mem _ hx)]

theorem optMap_inverts {α β : Type} (f : α → Option β) (g : β → α)
    (hfg : ∀ a b, f a = some b → g b = a) :
    ∀ (l : List α) (ds : List β), optMap f l = some ds → l = ds.map g := by
  intro l
  induction l with
  | nil =>
    intro ds h
    simp only [optMap] at h
    cases h
    simp
  | cons a as ih =>
    intro ds h
    simp only [optMap] at h
    cases hfa : f a with
    | none => rw [hfa] at h; exact absurd h (by simp)
    | some b =>
      rw [hfa] at h
      cases hrest : optMap f as with
      | none => rw [hrest] at h; exact absurd h (by simp)
      | some bs =>
        rw [hrest] at h
        cases h
        rw [List.map_cons, hfg a b hfa, ih bs hrest]

theorem optMap_bound {α β : Type} (f : α → Option β) (P : β → Prop)
    (hf : ∀ a b, f a = some b → P b) :
    ∀ (l : List α) (ds : List β), optMap f l = some ds → ∀ x ∈ ds, P x := by
  intro l
  induction l with
  | nil =>
    intro ds h
    simp only [optMap] at h
    cases h
    simp
  | cons a as ih =>
    intro ds h
    simp only [optMap] at h
    cases hfa : f a with
    | none => rw [hfa] at h; exact absurd h (by simp)
    | some b =>
      rw [hfa] at h
      cases hrest : optMap f as with
      | none => rw [hrest] at h; exact absurd h (by simp)
      | some bs =>
        rw [hrest] at h
        cases h
        intro x hx
        rcases List.mem_cons.mp hx with rfl | hx
        · exact hf a x hfa
        · exact ih bs hrest x hx

theorem optMap_replicate {α β : Type} (f : α → Option β) (a : α) (b : β)
    (h : f a = some b) : ∀ z, optMap f (List.replicate z a) = some (List.replicate z b) := by
  intro z
  induction z with
  | zero => simp [optMap]
  | succ k ih => simp [List.replicate_succ, optMap_cons, h, ih]

/-! ## Lemmas: base58 and base64 alphabets -/

theorem toList_mk (cs : List Char) : (String.mk cs).toList = cs := rfl

theorem length_mk (cs : List Char) : (String.mk cs).length = cs.length := rfl

theorem mk_toList (s : String) : String.mk s.toList = s := rfl

theorem b58CharVal_digitChar : ∀ d : Fin 58, b58CharVal (b58DigitChar d.val) = some d.val := by
  decide

theorem b58CharVal_lt {c : Char} {v : Nat} (h : b58CharVal c = some v) : v < 58 := by
  have h1 := charIdx_lt h
  have h2 : b58Alphabet.length = 58 := by decide
  omega

theorem b58DigitChar_charVal {c : Char} {v : Nat} (h : b58CharVal c = some v) :
    b58DigitChar v = c :=
  charIdx_getD h

theorem b64CharVal_digitChar : ∀ d : Fin 64, b64CharVal (b64DigitChar d.val) = some d.val := by
  decide

/-- Auxiliary cancellation: equal lists with the same tail after a zero
prefix have equal prefix lengths. -/
theorem replicate_zero_append_cancel {z1 z2 : Nat} {l : List Nat}
    (h : List.replicate z1 0 ++ l = List.replicate z2 (0 : Nat) ++ l) : z1 = z2 := by
  have := congrArg List.length h
  simp at this
  omega

/-! ## Lemmas: base58 round trips -/

theorem b58Decode_encode (bs : List Nat) (h : ∀ x ∈ bs, x < 256) :
    b58Decode (b58Encode bs) = some bs := by
  unfold b58Encode b58Decode
  have hn : beVal bs = Nat.ofDigits 256 bs.reverse := by
    have := foldl_mul_add 256 bs 0
    simpa [beVal] using this
  have hdig58 : natToBase 58 (beVal bs) = Nat.digits 58 (beVal bs) :=
    natToBase_eq_digits _ _ (by omega)
  have hlt58 : ∀ d ∈ (Nat.digits 58 (beVal bs)).reverse, d < 58 := fun d hd =>
    Nat.digits_lt_base (by omega) (List.mem_reverse.mp hd)
  have h1 : optMap b58CharVal (List.replicate (countLeadingZeros bs) '1') =
      some (List.replicate (countLeadingZeros bs) 0) :=
    optMap_replicate _ _ _ (by decide) _
  have h2 : optMap b58CharVal ((Nat.digits 58 (beVal bs)).reverse.map b58DigitChar) =
      some ((Nat.digits 58 (beVal bs)).reverse) :=
    optMap_map_of_inverse _ _ _ fun d hd => b58CharVal_digitChar ⟨d, hlt58 d hd⟩
  rw [toList_mk, hdig58, optMap_append _ _ _ _ _ h1 h2]
  set z := countLeadingZeros bs with hz
  set ds := List.replicate z 0 ++ (Nat.digits 58 (beVal bs)).reverse with hds
  have hds_lt : ∀ x ∈ ds, x < 58 := by
    intro x hx
    rcases List.mem_append.mp hx with hx | hx
    · rw [List.eq_of_mem_replicate hx]; omega
    · exact hlt58 x hx
  have hds_rev : Nat.ofDigits 58 ds.reverse = beVal bs := by
    rw [hds]
    rw [List.reverse_append, List.reverse_reverse, List.reverse_replicate,
      ofDigits_append_replicate_zero, Nat.ofDigits_digits]
  have hfold : ds.foldl (fun a d => a * 58 + d) 0 = beVal bs := by
    have := foldl_mul_add 58 ds 0
    rw [this, hds_rev]
    ring
  have hrec_ds := digits_reconstruct 58 (by omega) ds hds_lt
  rw [hds_rev] at hrec_ds
  have hclz : countLeadingZeros ds = z := by
    have : List.replicate (countLeadingZeros ds) 0 ++ (Nat.digits 58 (beVal bs)).reverse =
        List.replicate z 0 ++ (Nat.digits 58 (beVal bs)).reverse := by
      rw [hrec_ds, hds]
    exact replicate_zero_append_cancel this
  have hrec_bs := digits_reconstruct 256 (by omega) bs h
  rw [← hn] at hrec_bs
  show some (List.replicate (countLeadingZeros ds) 0 ++
      (natToBase 256 (ds.foldl (fun a d => a * 58 + d) 0)).reverse) = some bs
  rw [hfold, hclz, natToBase_eq_digits _ _ (by omega), hz, hrec_bs]

theorem b58Decode_bytes_lt {s : String} {bs : List Nat}
    (h : b58Decode s = some bs) : ∀ x ∈ bs, x < 256 := by
  unfold b58Decode at h
  cases hmap : optMap b58CharVal s.toList with
  | none => rw [hmap] at h; exact absurd h (by simp)
  | some ds =>
    rw [hmap] at h
    cases h
    intro x hx
    rcases List.mem_append.mp hx with hx | hx
    · rw [List.eq_of_mem_replicate hx]; omega
    · rw [natToBase_eq_digits _ _ (by omega)] at hx
      exact Nat.digits_lt_base (by omega) (List.mem_reverse.mp hx)

theorem b58Encode_decode {s : String} {bs : List Nat}
    (h : b58Decode s = some bs) : b58Encode bs = s := by
  unfold b58Decode at h
  cases hmap : optMap b58CharVal s.toList with
  | none => rw [hmap] at h; exact absurd h (by simp)
  | some ds =>
    rw [hmap] at h
    cases h
    have hds_lt : ∀ x ∈ ds, x < 58 :=
      optMap_bound b58CharVal (· < 58) (fun _ _ hab => b58CharVal_lt hab) _ _ hmap
    have hchars : s.toList = ds.map b58DigitChar :=
      optMap_inverts b58CharVal b58DigitChar (fun _ _ hab => b58DigitChar_charVal hab) _ _ hmap
    set nds := ds.foldl (fun a d => a * 58 + d) 0 with hnds
    have hnds_eq : nds = Nat.ofDigits 58 ds.reverse := by
      have := foldl_mul_add 58 ds 0
      simpa [hnds] using this
    set bs := List.replicate (countLeadingZeros ds) 0 ++ (natToBase 256 nds).reverse with hbs
    have hdig256 : natToBase 256 nds = Nat.digits 256 nds :=
      natToBase_eq_digits _ _ (by omega)
    have hbs_lt : ∀ x ∈ bs, x < 256 := by
      intro x hx
      rcases List.mem_append.mp hx with hx | hx
      · rw [List.eq_of_mem_replicate hx]; omega
      · rw [hdig256] at hx
        exact Nat.digits_lt_base (by omega) (List.mem_reverse.mp hx)
    have hbs_val : beVal bs = nds := by
      have := foldl_mul_add 256 bs 0
      simp only [beVal] at this ⊢
      rw [this, hbs, hdig256, List.reverse_append, List.reverse_reverse,
        List.reverse_replicate, ofDigits_append_replicate_zero, Nat.ofDigits_digits]
      ring
    have hrec_bs := digits_reconstruct 256 (by omega) bs hbs_lt
    have hbs_rev : Nat.ofDigits 256 bs.reverse = nds := by
      rw [hbs, hdig256, List.reverse_append, List.reverse_reverse,
        List.reverse_replicate, ofDigits_append_replicate_zero, Nat.ofDigits_digits]
    rw [hbs_rev] at hrec_bs
    have hclz : countLeadingZeros bs = countLeadingZeros ds := by
      have heq : List.replicate (countLeadingZeros bs) 0 ++ (Nat.digits 256 nds).reverse =
          List.replicate (countLeadingZeros ds) 0 ++ (Nat.digits 256 nds).reverse := by
        rw [hrec_bs, hbs, hdig256]
      exact replicate_zero_append_cancel heq
    have hrec_ds := digits_reconstruct 58 (by omega) ds hds_lt
    rw [← hnds_eq] at hrec_ds
    unfold b58Encode
    rw [← mk_toList s, hchars]
    congr 1
    rw [hbs_val, hclz, natToBase_eq_digits _ _ (by omega)]
    have hone : '1' = b58DigitChar 0 := by decide
    rw [hone, ← List.map_replicate, ← List.map_append, hrec_ds]

/-! ## Lemmas: base64 round trip -/

theorem b64DigitChar_ne_pad : ∀ d : Fin 64, b64DigitChar d.val ≠ '=' := by decide

theorem b64DecodeChars_encodeChars : ∀ bs : List Nat, (∀ x ∈ bs, x < 256) →
    b64DecodeChars (b64EncodeChars bs) = some bs
  | [], _ => rfl
  | [a], h => by
    have ha : a < 256 := h a (by simp)
    have h1 := b64CharVal_digitChar ⟨a / 4, by omega⟩
    have h2 := b64CharVal_digitChar ⟨a % 4 * 16, by omega⟩
    simp only [b64EncodeChars, b64DecodeChars, h1, h2, if_pos rfl, and_self, if_true]
    simp
    all_goals omega
  | [a, b], h => by
    have ha : a < 256 := h a (by simp)
    have hb : b < 256 := h b (by simp)
    have h1 := b64CharVal_digitChar ⟨a / 4, by omega⟩
    have h2 := b64CharVal_digitChar ⟨a % 4 * 16 + b / 16, by omega⟩
    have h3 := b64CharVal_digitChar ⟨b % 16 * 4, by omega⟩
    have hne3 := b64DigitChar_ne_pad ⟨b % 16 * 4, by omega⟩
    simp only [b64EncodeChars, b64DecodeChars, h1, h2, h3, if_neg hne3, if_pos rfl, if_true]
    simp
    constructor
    all_goals omega
  | a :: b :: c :: rest, h => by
    have ha : a < 256 := h a (by simp)
    have hb : b < 256 := h b (by simp)
    have hc : c < 256 := h c (by simp)
    have h1 := b64CharVal_digitChar ⟨a / 4, by omega⟩
    have h2 := b64CharVal_digitChar ⟨a % 4 * 16 + b / 16, by omega⟩
    have h3 := b64CharVal_digitChar ⟨b % 16 * 4 + c / 64, by omega⟩
    have h4 := b64CharVal_digitChar ⟨c % 64, by omega⟩
    have hne3 := b64DigitChar_ne_pad ⟨b % 16 * 4 + c / 64, by omega⟩
    have hne4 := b64DigitChar_ne_pad ⟨c % 64, by omega⟩
    have hrest := b64DecodeChars_encodeChars rest fun x hx => h x (by simp [hx])
    simp only [b64EncodeChars, b64DecodeChars, h1, h2, h3, h4, if_neg hne3, if_neg hne4, hrest]
    simp
    refine ⟨?_, ?_, ?_⟩
    all_goals omega

theorem b64Decode_encode (bs : List Nat) (h : ∀ x ∈ bs, x < 256) :
    b64Decode (b64Encode bs) = some bs := by
  unfold b64Decode b64Encode
  rw [toList_mk]
  exact b64DecodeChars_encodeChars bs h

/-! ## Lemmas: base58 length bound and nonemptiness -/

theorem pow256_le_pow58 : ∀ w : Fin 33, 256 ^ (w : Nat) ≤ 58 ^ (12 + (w : Nat)) := by
  decide

theorem digits_len_le_of_lt_pow {b n k : Nat} (hb : 1 < b) (h : n < b ^ k) :
    (Nat.digits b n).length ≤ k := by
  by_cases hn : n = 0
  · subst hn; simp
  · by_contra hlen
    push_neg at hlen
    have h1 := Nat.base_pow_length_digits_le b n hb hn
    have h2 : b ^ k * b ≤ b ^ (Nat.digits b n).length := by
      rw [← pow_succ]
      exact Nat.pow_le_pow_right (by omega) (by omega)
    have h3 : b ^ k * b ≤ b * n := le_trans h2 h1
    have h4 : b ^ k ≤ n := by
      have h5 : b * b ^ k ≤ b * n := by
        calc b * b ^ k = b ^ k * b := Nat.mul_comm _ _
          _ ≤ b * n := h3
      exact Nat.le_of_mul_le_mul_left h5 (by omega)
    omega

theorem b58Encode_length_le_44 (bs : List Nat) (h32 : bs.length ≤ 32)
    (h : ∀ x ∈ bs, x < 256) : (b58Encode bs).length ≤ 44 := by
  unfold b58Encode
  rw [length_mk]
  rw [List.length_append, List.length_replicate, List.length_map, List.length_reverse]
  set z := countLeadingZeros bs with hzdef
  have hn : beVal bs = Nat.ofDigits 256 bs.reverse := by
    have := foldl_mul_add 256 bs 0
    simpa [beVal] using this
  have hrec := digits_reconstruct 256 (by omega) bs h
  have hlen := congrArg List.length hrec
  rw [List.length_append, List.length_replicate, List.length_reverse] at hlen
  rw [← hn] at hlen
  have hzle : z ≤ bs.length := clz_le_length bs
  have hnlt : beVal bs < 256 ^ (bs.length - z) := by
    have hbase := Nat.lt_base_pow_length_digits (b := 256) (m := beVal bs) (by omega)
    have : (Nat.digits 256 (beVal bs)).length = bs.length - z := by omega
    rwa [this] at hbase
  have hw : bs.length - z ≤ 32 := by omega
  have hstep : 256 ^ (bs.length - z) ≤ 58 ^ (12 + (bs.length - z)) :=
    pow256_le_pow58 ⟨bs.length - z, by omega⟩
  have hdlen : (Nat.digits 58 (beVal bs)).length ≤ 12 + (bs.length - z) :=
    digits_len_le_of_lt_pow (by omega) (lt_of_lt_of_le hnlt hstep)
  rw [natToBase_eq_digits _ _ (by omega)]
  omega

theorem b58Encode_ne_empty (bs : List Nat) (hne : bs ≠ []) (h : ∀ x ∈ bs, x < 256) :
    b58Encode bs ≠ "" := by
  intro hcontra
  have hchars : List.replicate (countLeadingZeros bs) '1' ++
      (natToBase 58 (beVal bs)).reverse.map b58DigitChar = ([] : List Char) := by
    have := congrArg String.toList hcontra
    simpa [b58Encode, toList_mk] using this
  rw [List.append_eq_nil] at hchars
  have hz : countLeadingZeros bs = 0 := by
    have := congrArg List.length hchars.1
    simpa using this
  have hd : (natToBase 58 (beVal bs)).reverse = [] := by
    have := congrArg List.length hchars.2
    simpa using this
  have hn : beVal bs = Nat.ofDigits 256 bs.reverse := by
    have := foldl_mul_add 256 bs 0
    simpa [beVal] using this
  have hrec := digits_reconstruct 256 (by omega) bs h
  rw [← hn] at hrec
  have hnz : beVal bs = 0 := by
    rw [natToBase_eq_digits _ _ (by omega)] at hd
    have : Nat.digits 58 (beVal bs) = [] := by
      have := congrArg List.reverse hd
      simpa using this
    exact Nat.digits_eq_nil_iff_eq_zero.mp this
  have hzero : Nat.digits 256 (beVal bs) = [] := by
    rw [hnz]
    simp
  rw [hz, hzero] at hrec
  simp at hrec
  exact hne hrec

/-! ## Lemmas: `Pubkey` parsing and printing -/

theorem pubkeyFromStr_encode (bs : List Nat) (hlen : bs.length = 32)
    (h : ∀ x ∈ bs, x < 256) : pubkeyFromStr (b58Encode bs) = some bs := by
  unfold pubkeyFromStr
  rw [if_neg (by have := b58Encode_length_le_44 bs (by omega) h; omega),
    b58Decode_encode bs h]
  show (if bs.length = 32 then some bs else none) = some bs
  rw [if_pos hlen]

theorem pubkeyFromStr_decode {s : String} {bs : List Nat}
    (h : pubkeyFromStr s = some bs) : b58Decode s = some bs ∧ bs.length = 32 := by
  unfold pubkeyFromStr at h
  by_cases hl : s.length > 44
  · rw [if_pos hl] at h
    exact absurd h (by simp)
  · rw [if_neg hl] at h
    cases hdec : b58Decode s with
    | none => rw [hdec] at h; exact absurd h (by simp)
    | some bs2 =>
      rw [hdec] at h
      change (if bs2.length = 32 then some bs2 else none) = some bs at h
      by_cases h32 : bs2.length = 32
      · rw [if_pos h32] at h
        cases h
        exact ⟨rfl, h32⟩
      · rw [if_neg h32] at h
        exact absurd h (by simp)

theorem pubkeyToString_fromStr {s : String} {bs : List Nat}
    (h : pubkeyFromStr s = some bs) : pubkeyToString bs = s :=
  b58Encode_decode (pubkeyFromStr_decode h).1

theorem pubkeyFromStr_bytes_lt {s : String} {bs : List Nat}
    (h : pubkeyFromStr s = some bs) : ∀ x ∈ bs, x < 256 :=
  b58Decode_bytes_lt (pubkeyFromStr_decode h).1

theorem invalidAddr_fromStr_none {s : String} (h : invalidAddr s = true) :
    pubkeyFromStr s = none := by
  unfold invalidAddr at h
  unfold pubkeyFromStr
  by_cases hl : s.length > 44
  · rw [if_pos hl]
  · rw [if_neg hl]
    cases hdec : b58Decode s with
    | none => rfl
    | some bs =>
      rw [hdec] at h
      simp only [decide_eq_true_eq] at h
      show (if bs.length = 32 then some bs else none) = none
      rw [if_neg h]

/-! ## Lemmas: fixed-width byte strings -/

theorem natToLEBytes_length : ∀ (k n : Nat), (natToLEBytes k n).length = k := by
  intro k
  induction k with
  | zero => intro n; rfl
  | succ m ih => intro n; simp [natToLEBytes, ih]

theorem natToLEBytes_lt : ∀ (k n : Nat), ∀ x ∈ natToLEBytes k n, x < 256 := by
  intro k
  induction k with
  | zero => intro n x hx; simp [natToLEBytes] at hx
  | succ m ih =>
    intro n x hx
    simp only [natToLEBytes, List.mem_cons] at hx
    rcases hx with rfl | hx
    · omega
    · exact ih _ x hx

theorem edCompress_length (q : EPoint) : (edCompress q).length = 32 :=
  natToLEBytes_length 32 _

theorem edCompress_lt (q : EPoint) : ∀ x ∈ edCompress q, x < 256 :=
  natToLEBytes_lt 32 _

theorem ed25519DerivePub_length (seed : List Nat) : (ed25519DerivePub seed).length = 32 :=
  edCompress_length _

theorem ed25519DerivePub_lt (seed : List Nat) : ∀ x ∈ ed25519DerivePub seed, x < 256 :=
  edCompress_lt _

/-! ## Claim theorems -/

/-- C4: a `/keypair` request with query parameter `fail=true` yields HTTP 400
with body exactly `success:false`, `error:"Simulated failure via query param"`,
and no key pair is generated (the result is independent of the randomness). -/
theorem c4_keypair_fail_param (params : String → Option String) (seed seed2 : List Nat)
    (h : params "fail" = some "true") :
    generate_keypair params seed =
      .error (400, ⟨false, "Simulated failure via query param"⟩) ∧
    generate_keypair params seed = generate_keypair params seed2 := by
  have hf : failRequested params = true := by
    simp [failRequested, h]
  refine ⟨?_, ?_⟩ <;> simp [generate_keypair, hf, badReq]

theorem c4_witness :
    (fun k => if k = "fail" then some "true" else none) "fail" = some "true" ∧
    generate_keypair (fun k => if k = "fail" then some "true" else none) seedC =
      .error (400, ⟨false, "Simulated failure via query param"⟩) :=
  ⟨rfl, (c4_keypair_fail_param _ seedC [] rfl).1⟩

/-- C8: the simulated failure triggers only on the exact string `"true"`;
for any other value of `fail` (or no `fail` at all) the handler generates
and returns a key pair. -/
theorem c8_keypair_fail_exact_string (params : String → Option String) (seed : List Nat)
    (h : ∀ v, params "fail" = some v → v ≠ "true") :
    generate_keypair params seed =
      .ok ⟨true, ⟨b58Encode (ed25519DerivePub seed),
        b58Encode (seed ++ ed25519DerivePub seed)⟩⟩ := by
  have hf : failRequested params = false := by
    unfold failRequested
    cases hp : params "fail" with
    | none => rfl
    | some v => simp [h v hp]
  simp [generate_keypair, hf]

theorem c8_witness :
    ((fun k => if k = "fail" then some "false" else none) "fail" = some "false") ∧
    ((fun _ => (none : Option String)) "fail" = none) ∧
    generate_keypair (fun k => if k = "fail" then some "false" else none) seedC =
      .ok ⟨true, ⟨b58Encode (ed25519DerivePub seedC),
        b58Encode (seedC ++ ed25519DerivePub seedC)⟩⟩ ∧
    generate_keypair (fun _ => none) seedC =
      .ok ⟨true, ⟨b58Encode (ed25519DerivePub seedC),
        b58Encode (seedC ++ ed25519DerivePub seedC)⟩⟩ :=
  ⟨rfl, rfl,
    c8_keypair_fail_exact_string _ seedC
      (by intro v hv; simp at hv; simp [← hv]),
    c8_keypair_fail_exact_string _ seedC (by intro v hv; simp at hv)⟩

/-- C6: `/send/sol` with `from` and `to` both the all-one address (the
32-byte zero key) and 1000 lamports returns HTTP 200, the system program's
canonical address as `program_id`, and exactly two account entries. -/
theorem c6_send_sol_zero_address :
    send_sol ⟨"11111111111111111111111111111111",
      "11111111111111111111111111111111", 1000⟩ =
      .ok ⟨true, ⟨pubkeyToString systemProgramId,
        ["11111111111111111111111111111111", "11111111111111111111111111111111"],
        b64Encode ([2, 0, 0, 0] ++ natToLEBytes 8 1000)⟩⟩ ∧
    pubkeyToString systemProgramId = "11111111111111111111111111111111" := by
  constructor <;> decide

/-- C7: `mint_token` is a pure function of the request fields: requests
with identical `mint`, `destination`, `authority` and `amount` produce
identical responses (hence byte-identical instruction data and account
lists). -/
theorem c7_mint_token_deterministic (r1 r2 : MintTokenRequest)
    (hm : r1.mint = r2.mint) (hd : r1.destination = r2.destination)
    (ha : r1.authority = r2.authority) (hq : r1.amount = r2.amount) :
    mint_token r1 = mint_token r2 := by
  cases r1
  cases r2
  simp_all

theorem c7_witness :
    mint_token ⟨"11111111111111111111111111111113",
      "11111111111111111111111111111114", "11111111111111111111111111111115", 7⟩ =
    mint_token ⟨"11111111111111111111111111111113",
      "11111111111111111111111111111114", "11111111111111111111111111111115", 7⟩ :=
  c7_mint_token_deterministic _ _ rfl rfl rfl rfl

/-- C10: `/send/sol` errors exactly when `from` or `to` fails address
decoding; for every pair of valid 32-byte addresses and every `u64`
lamports value it answers HTTP 200 with `success:true` (the native
transfer builder has no failure path). -/
theorem c10_send_sol_error_iff (req : SendSolRequest) :
    ((∃ e, send_sol req = .error e) ↔
      (pubkeyFromStr req.«from» = none ∨ pubkeyFromStr req.«to» = none)) ∧
    (∀ fromB toB, pubkeyFromStr req.«from» = some fromB →
      pubkeyFromStr req.«to» = some toB → req.lamports < 18446744073709551616 →
      send_sol req = .ok ⟨true, ⟨pubkeyToString systemProgramId,
          [pubkeyToString fromB, pubkeyToString toB],
          b64Encode ([2, 0, 0, 0] ++ natToLEBytes 8 req.lamports)⟩⟩ ∧
        statusOf (send_sol req) = 200) := by
  constructor
  · cases hf : pubkeyFromStr req.«from» with
    | none => simp [send_sol, hf]
    | some fromB =>
      cases ht : pubkeyFromStr req.«to» with
      | none => simp [send_sol, hf, ht]
      | some toB => simp [send_sol, hf, ht, system_transfer]
  · intro fromB toB hf ht _
    refine ⟨?_, ?_⟩ <;> simp [send_sol, hf, ht, system_transfer, statusOf]

theorem c10_witness :
    pubkeyFromStr "11111111111111111111111111111113" = some (List.replicate 31 0 ++ [2]) ∧
    (1000 : Nat) < 18446744073709551616 ∧
    send_sol ⟨"11111111111111111111111111111113", "11111111111111111111111111111113", 1000⟩ =
      .ok ⟨true, ⟨pubkeyToString systemProgramId,
        [pubkeyToString (List.replicate 31 0 ++ [2]),
         pubkeyToString (List.replicate 31 0 ++ [2])],
        b64Encode ([2, 0, 0, 0] ++ natToLEBytes 8 1000)⟩⟩ ∧
    statusOf (send_sol ⟨"11111111111111111111111111111113",
      "11111111111111111111111111111113", 1000⟩) = 200 :=
  ⟨by decide, by decide,
    (c10_send_sol_error_iff _).2 _ _ (by decide) (by decide) (by decide)⟩

/-- C3: for every endpoint field holding an address, any string that is not
a valid base-58 encoding of 32 bytes makes the endpoint answer HTTP 400
with `success:false` and the field's own error message, the instruction or
signature primitive never being reached; validation short-circuits at the
first invalid field in source order. -/
theorem c3_invalid_address_rejected :
    (∀ req : CreateTokenRequest, invalidAddr req.mint = true →
      create_token req = .error (400, ⟨false, "Invalid mint pubkey"⟩)) ∧
    (∀ req : CreateTokenRequest, ∀ b, pubkeyFromStr req.mint = some b →
      invalidAddr req.mintAuthority = true →
      create_token req = .error (400, ⟨false, "Invalid mint authority pubkey"⟩)) ∧
    (∀ req : MintTokenRequest, invalidAddr req.mint = true →
      mint_token req = .error (400, ⟨false, "Invalid mint address"⟩)) ∧
    (∀ req : MintTokenRequest, ∀ b, pubkeyFromStr req.mint = some b →
      invalidAddr req.destination = true →
      mint_token req = .error (400, ⟨false, "Invalid destination address"⟩)) ∧
    (∀ req : MintTokenRequest, ∀ b c, pubkeyFromStr req.mint = some b →
      pubkeyFromStr req.destination = some c →
      invalidAddr req.authority = true →
      mint_token req = .error (400, ⟨false, "Invalid authority address"⟩)) ∧
    (∀ req : VerifyMessageRequest, invalidAddr req.pubkey = true →
      verify_message req = .error (400, ⟨false, "Invalid pubkey"⟩)) ∧
    (∀ req : SendSolRequest, invalidAddr req.«from» = true →
      send_sol req = .error (400, ⟨false, "Invalid 'from' address"⟩)) ∧
    (∀ req : SendSolRequest, ∀ b, pubkeyFromStr req.«from» = some b →
      invalidAddr req.«to» = true →
      send_sol req = .error (400, ⟨false, "Invalid 'to' address"⟩)) ∧
    (∀ req : SendTokenRequest, invalidAddr req.destination = true →
      send_token req = .error (400, ⟨false, "Invalid destination address"⟩)) ∧
    (∀ req : SendTokenRequest, ∀ b, pubkeyFromStr req.destination = some b →
      invalidAddr req.mint = true →
      send_token req = .error (400, ⟨false, "Invalid mint address"⟩)) ∧
    (∀ req : SendTokenRequest, ∀ b c, pubkeyFromStr req.destination = some b →
      pubkeyFromStr req.mint = some c →
      invalidAddr req.owner = true →
      send_token req = .error (400, ⟨false, "Invalid owner address"⟩)) := by
  refine ⟨?_, ?_, ?_, ?_, ?_, ?_, ?_, ?_, ?_, ?_, ?_⟩
  · intro req h
    simp [create_token, invalidAddr_fromStr_none h, badReq]
  · intro req b hb h
    simp [create_token, hb, invalidAddr_fromStr_none h, badReq]
  · intro req h
    simp [mint_token, invalidAddr_fromStr_none h, badReq]
  · intro req b hb h
    simp [mint_token, hb, invalidAddr_fromStr_none h, badReq]
  · intro req b c hb hc h
    simp [mint_token, hb, hc, invalidAddr_fromStr_none h, badReq]
  · intro req h
    simp [verify_message, invalidAddr_fromStr_none h, badReq]
  · intro req h
    simp [send_sol, invalidAddr_fromStr_none h, badReq]
  · intro req b hb h
    simp [send_sol, hb, invalidAddr_fromStr_none h, badReq]
  · intro req h
    simp [send_token, invalidAddr_fromStr_none h, badReq]
  · intro req b hb h
    simp [send_token, hb, invalidAddr_fromStr_none h, badReq]
  · intro req b c hb hc h
    simp [send_token, hb, hc, invalidAddr_fromStr_none h, badReq]

theorem c3_witness :
    invalidAddr "!!!" = true ∧ invalidAddr "abc" = true ∧
    create_token ⟨"zzzz", "!!!", 6⟩ = .error (400, ⟨false, "Invalid mint pubkey"⟩) ∧
    mint_token ⟨"11111111111111111111111111111113", "abc", "x", 5⟩ =
      .error (400, ⟨false, "Invalid destination address"⟩) :=
  ⟨by decide, by decide,
    c3_invalid_address_rejected.1 ⟨"zzzz", "!!!", 6⟩ (by decide),
    c3_invalid_address_rejected.2.2.2.1 ⟨"11111111111111111111111111111113", "abc", "x", 5⟩
      (List.replicate 31 0 ++ [2]) (by decide) (by decide)⟩

/-- C1: in `/send/token` the `source` handed to `transfer_checked` is the
pubkey parsed from the request's `destination` field, so for every valid
request the first account of the built instruction (and of the response)
is the destination address. -/
theorem c1_send_token_source_is_destination (req : SendTokenRequest)
    (dest mintB ownerB : List Nat)
    (hd : pubkeyFromStr req.destination = some dest)
    (hm : pubkeyFromStr req.mint = some mintB)
    (ho : pubkeyFromStr req.owner = some ownerB) :
    transfer_checked splTokenId dest mintB dest ownerB [] req.amount 6 =
      .ok { program_id := splTokenId
            accounts := [⟨dest, false, true⟩, ⟨mintB, false, false⟩,
              ⟨dest, false, true⟩, ⟨ownerB, true, false⟩]
            data := 12 :: natToLEBytes 8 req.amount ++ [6] } ∧
    send_token req = .ok ⟨true,
      ⟨pubkeyToString splTokenId,
        [⟨req.destination, false⟩, ⟨pubkeyToString mintB, false⟩,
         ⟨req.destination, false⟩, ⟨pubkeyToString ownerB, true⟩],
        b64Encode (12 :: natToLEBytes 8 req.amount ++ [6])⟩⟩ := by
  have hds : pubkeyToString dest = req.destination := pubkeyToString_fromStr hd
  constructor
  · simp [transfer_checked]
  · simp [send_token, hd, hm, ho, transfer_checked, hds]

theorem c1_witness :
    pubkeyFromStr "11111111111111111111111111111113" = some (List.replicate 31 0 ++ [2]) ∧
    send_token ⟨"11111111111111111111111111111113", "11111111111111111111111111111114",
      "11111111111111111111111111111115", 9⟩ = .ok ⟨true,
      ⟨pubkeyToString splTokenId,
        [⟨"11111111111111111111111111111113", false⟩,
         ⟨pubkeyToString (List.replicate 31 0 ++ [3]), false⟩,
         ⟨"11111111111111111111111111111113", false⟩,
         ⟨pubkeyToString (List.replicate 31 0 ++ [4]), true⟩],
        b64Encode (12 :: natToLEBytes 8 9 ++ [6])⟩⟩ :=
  ⟨by decide,
    (c1_send_token_source_is_destination
      ⟨"11111111111111111111111111111113", "11111111111111111111111111111114",
        "11111111111111111111111111111115", 9⟩
      (List.replicate 31 0 ++ [2]) (List.replicate 31 0 ++ [3])
      (List.replicate 31 0 ++ [4]) (by decide) (by decide) (by decide)).2⟩

/-- C9: on success, `/message/sign` echoes the request's message, and
`/message/verify` echoes both the request's message and its `pubkey`
string unchanged. -/
theorem c9_success_echoes_request :
    (∀ (req : SignMessageRequest) (resp : SuccessResponse SignMessageResponse),
      sign_message req = .ok resp → resp.data.message = req.message) ∧
    (∀ (req : VerifyMessageRequest) (resp : SuccessResponse VerifyMessageResponse),
      verify_message req = .ok resp →
        resp.data.message = req.message ∧ resp.data.pubkey = req.pubkey) := by
  constructor
  · intro req resp h
    unfold sign_message at h
    split at h
    · exact absurd h (by simp)
    · split at h
      · exact absurd h (by simp)
      · simp only [Except.ok.injEq] at h
        rw [← h]
  · intro req resp h
    unfold verify_message at h
    split at h
    · exact absurd h (by simp)
    · split at h
      · exact absurd h (by simp)
      · split at h
        · exact absurd h (by simp)
        · split at h
          · exact absurd h (by simp)
          · simp only [Except.ok.injEq] at h
            rw [← h]
            exact ⟨rfl, rfl⟩

theorem sign_message_helloC :
    sign_message ⟨"hello", b58Encode (seedC ++ pkC)⟩ =
      .ok ⟨true, ⟨b64Encode sigC, pubkeyToString pkC, "hello"⟩⟩ := by
  decide

theorem verify_message_helloC :
    verify_message ⟨"hello", b64Encode sigC, pubkeyToString pkC⟩ =
      .ok ⟨true, ⟨true, "hello", pubkeyToString pkC⟩⟩ := by
  decide

theorem c9_witness :
    (("hello" : String) = "hello") ∧
    (pubkeyToString pkC = pubkeyToString pkC) :=
  ⟨c9_success_echoes_request.1 ⟨"hello", b58Encode (seedC ++ pkC)⟩
      ⟨true, ⟨b64Encode sigC, pubkeyToString pkC, "hello"⟩⟩ sign_message_helloC,
    (c9_success_echoes_request.2 ⟨"hello", b64Encode sigC, pubkeyToString pkC⟩
      ⟨true, ⟨true, "hello", pubkeyToString pkC⟩⟩ verify_message_helloC).2⟩

/-- C5: every `/keypair` call without `fail=true` answers HTTP 200 with
non-empty `pubkey` and `secret` strings; the secret base-58-decodes to the
64 key-pair bytes, the pubkey to its 32 public bytes, and deriving the
public key from the decoded secret's seed half gives back exactly the
returned pubkey. -/
theorem c5_keypair_wellformed (params : String → Option String) (seed : List Nat)
    (hfail : failRequested params = false)
    (hlen : seed.length = 32) (hbytes : ∀ x ∈ seed, x < 256) :
    ∃ resp : SuccessResponse KeypairResponse,
      generate_keypair params seed = .ok resp ∧
      statusOf (generate_keypair params seed) = 200 ∧
      resp.data.pubkey ≠ "" ∧
      resp.data.secret ≠ "" ∧
      b58Decode resp.data.pubkey = some (ed25519DerivePub seed) ∧
      (ed25519DerivePub seed).length = 32 ∧
      b58Decode resp.data.secret = some (seed ++ ed25519DerivePub seed) ∧
      (seed ++ ed25519DerivePub seed).length = 64 ∧
      (seed ++ ed25519DerivePub seed).drop 32 = ed25519DerivePub seed ∧
      ed25519DerivePub ((seed ++ ed25519DerivePub seed).take 32) = ed25519DerivePub seed ∧
      b58Encode (ed25519DerivePub seed) = resp.data.pubkey := by
  have hplen := ed25519DerivePub_length seed
  have hplt := ed25519DerivePub_lt seed
  have hpne : ed25519DerivePub seed ≠ [] := by
    intro h0
    rw [h0] at hplen
    simp at hplen
  have hsne : seed ++ ed25519DerivePub seed ≠ [] := by
    intro h0
    rw [List.append_eq_nil] at h0
    exact hpne h0.2
  have hslt : ∀ x ∈ seed ++ ed25519DerivePub seed, x < 256 := by
    intro x hx
    rcases List.mem_append.mp hx with hx | hx
    · exact hbytes x hx
    · exact hplt x hx
  have htake : (seed ++ ed25519DerivePub seed).take 32 = seed := by
    rw [← hlen]
    exact List.take_left seed _
  have hdrop : (seed ++ ed25519DerivePub seed).drop 32 = ed25519DerivePub seed := by
    rw [← hlen]
    exact List.drop_left seed _
  refine ⟨⟨true, ⟨b58Encode (ed25519DerivePub seed),
    b58Encode (seed ++ ed25519DerivePub seed)⟩⟩, ?_, ?_, ?_, ?_, ?_, ?_, ?_, ?_, ?_, ?_, ?_⟩
  · simp [generate_keypair, hfail]
  · simp [generate_keypair, hfail, statusOf]
  · exact b58Encode_ne_empty _ hpne hplt
  · exact b58Encode_ne_empty _ hsne hslt
  · exact b58Decode_encode _ hplt
  · exact hplen
  · exact b58Decode_encode _ hslt
  · rw [List.length_append, hlen, hplen]
  · exact hdrop
  · rw [htake]
  · rfl

theorem c5_witness :
    failRequested (fun _ => none) = false ∧
    seedC.length = 32 ∧ (∀ x ∈ seedC, x < 256) ∧
    ∃ resp : SuccessResponse KeypairResponse,
      generate_keypair (fun _ => none) seedC = .ok resp ∧
      statusOf (generate_keypair (fun _ => none) seedC) = 200 ∧
      resp.data.pubkey ≠ "" ∧
      resp.data.secret ≠ "" ∧
      b58Decode resp.data.pubkey = some (ed25519DerivePub seedC) ∧
      (ed25519DerivePub seedC).length = 32 ∧
      b58Decode resp.data.secret = some (seedC ++ ed25519DerivePub seedC) ∧
      (seedC ++ ed25519DerivePub seedC).length = 64 ∧
      (seedC ++ ed25519DerivePub seedC).drop 32 = ed25519DerivePub seedC ∧
      ed25519DerivePub ((seedC ++ ed25519DerivePub seedC).take 32) = ed25519DerivePub seedC ∧
      b58Encode (ed25519DerivePub seedC) = resp.data.pubkey :=
  ⟨rfl, by decide, by decide,
    c5_keypair_wellformed (fun _ => none) seedC rfl (by decide) (by decide)⟩

/-! ## C2: tampered inputs at `/message/verify` -/

/-- `seedC` really signs `"hello"` to `sigC` with public key `pkC`. -/
theorem genuine_helloC : ed25519Sign seedC (strBytes "hello") = (sigC, pkC) := by
  decide

/-- Setting the first byte of `pkC` to 1 yields a 32-byte string that is
not a curve point, so `/message/verify` rejects it with HTTP 400. -/
theorem verify_mutpk_helloC :
    verify_message ⟨"hello", b64Encode sigC, pubkeyToString (pkC.set 0 1)⟩ =
      .error (400, ⟨false, "Invalid public key format"⟩) := by
  decide

/-- Strict verification concretely fails on the altered message `"hellp"`. -/
theorem verify_hellp_false :
    ed25519VerifyStrict pkC (strBytes "hellp") sigC = false := by
  decide

/-- Strict verification concretely fails on `sigC` with byte 5 altered. -/
theorem verify_mutsig_false :
    ed25519VerifyStrict pkC (strBytes "hello") (sigC.set 5 216) = false := by
  decide

/-- C2 (as stated) is false: for the genuine triple
(`"hello"`, `sigC`, `pkC`), mutating byte 0 of the public key to 1 makes
`/message/verify` answer HTTP 400 (`Invalid public key format`) instead of
HTTP 200 with `valid:false`. -/
theorem c2_counterexample : ¬ claimC2 := by
  intro h
  have h2 := (h "hello" sigC pkC ⟨seedC, by decide, genuine_helloC⟩).2.1 0 1
    (by decide) (by decide) (by decide)
  rw [verify_mutpk_helloC] at h2
  exact Except.noConfusion h2

/-- C2 amended: for a genuine triple (whose public key decompresses, as
every genuinely derived key does), every single-byte mutation of the
signature and every change of the message still answer HTTP 200, with
`valid` the strict-verification bit (`false` on the concrete mutations
checked in the witness); but a single-byte mutation of the public key can
fall off the curve, in which case the endpoint answers HTTP 400 with
`Invalid public key format` rather than `valid:false`. -/
theorem c2_tamper_amended (m : String) (sig pk : List Nat)
    (hg : genuineTriple m sig pk) (hdec : (edDecompress pk).isSome = true) :
    (∀ i b, i < sig.length → b < 256 →
      verify_message ⟨m, b64Encode (sig.set i b), pubkeyToString pk⟩ =
        .ok ⟨true, ⟨ed25519VerifyStrict pk (strBytes m) (sig.set i b), m,
          pubkeyToString pk⟩⟩) ∧
    (∀ m' : String,
      verify_message ⟨m', b64Encode sig, pubkeyToString pk⟩ =
        .ok ⟨true, ⟨ed25519VerifyStrict pk (strBytes m') sig, m',
          pubkeyToString pk⟩⟩) ∧
    verify_message ⟨"hello", b64Encode sigC, pubkeyToString (pkC.set 0 1)⟩ =
      .error (400, ⟨false, "Invalid public key format"⟩) := by
  obtain ⟨seed, hseedlen, hsig⟩ := hg
  have hpk : pk = ed25519DerivePub seed := by
    have := congrArg Prod.snd hsig
    simpa [ed25519Sign] using this.symm
  have hsigeq : sig = dalekSign seed (ed25519DerivePub seed) (strBytes m) := by
    have := congrArg Prod.fst hsig
    simpa [ed25519Sign] using this.symm
  have hpklen : pk.length = 32 := by rw [hpk]; exact ed25519DerivePub_length seed
  have hpklt : ∀ x ∈ pk, x < 256 := by rw [hpk]; exact ed25519DerivePub_lt seed
  have hsiglen : sig.length = 64 := by
    rw [hsigeq]
    unfold dalekSign
    rw [List.length_append, edCompress_length, natToLEBytes_length]
  have hsiglt : ∀ x ∈ sig, x < 256 := by
    rw [hsigeq]
    unfold dalekSign
    intro x hx
    rcases List.mem_append.mp hx with hx | hx
    · exact edCompress_lt _ x hx
    · exact natToLEBytes_lt _ _ x hx
  have hpkparse : pubkeyFromStr (pubkeyToString pk) = some pk :=
    pubkeyFromStr_encode pk hpklen hpklt
  obtain ⟨q, hq⟩ := Option.isSome_iff_exists.mp hdec
  refine ⟨?_, ?_, verify_mutpk_helloC⟩
  · intro i b hi hb
    have hset_len : (sig.set i b).length = 64 := by
      rw [List.length_set]
      exact hsiglen
    have hset_lt : ∀ x ∈ sig.set i b, x < 256 := by
      intro x hx
      rcases List.mem_or_eq_of_mem_set hx with hx | rfl
      · exact hsiglt x hx
      · exact hb
    simp [verify_message, hpkparse, b64Decode_encode _ hset_lt, hq, hset_len]
  · intro m'
    simp [verify_message, hpkparse, b64Decode_encode _ hsiglt, hq, hsiglen]

theorem c2_witness :
    genuineTriple "hello" sigC pkC ∧
    (edDecompress pkC).isSome = true ∧
    verify_message ⟨"hellp", b64Encode sigC, pubkeyToString pkC⟩ =
      .ok ⟨true, ⟨ed25519VerifyStrict pkC (strBytes "hellp") sigC, "hellp",
        pubkeyToString pkC⟩⟩ ∧
    verify_message ⟨"hello", b64Encode (sigC.set 5 216), pubkeyToString pkC⟩ =
      .ok ⟨true, ⟨ed25519VerifyStrict pkC (strBytes "hello") (sigC.set 5 216), "hello",
        pubkeyToString pkC⟩⟩ ∧
    ed25519VerifyStrict pkC (strBytes "hellp") sigC = false ∧
    ed25519VerifyStrict pkC (strBytes "hello") (sigC.set 5 216) = false :=
  ⟨⟨seedC, by decide, genuine_helloC⟩, by decide,
    (c2_tamper_amended "hello" sigC pkC ⟨seedC, by decide, genuine_helloC⟩ (by decide)).2.1 "hellp",
    (c2_tamper_amended "hello" sigC pkC ⟨seedC, by decide, genuine_helloC⟩ (by decide)).1 5 216
      (by decide) (by decide),
    verify_hellp_false, verify_mutsig_false⟩

end Spec2Proof
